import Mathlib

/-!
Verification of the circuit-breaker core of `src/wasm/src/lib.rs`.

The Rust module keeps a single mutable `CircuitBreakerState` and exports the
operations `init_breaker`, `allow_request`, `record_success`, `record_failure`,
`get_status`, `force_open` and `reset_breaker`.  We embed the state as a
structure over `Nat` and each exported operation as a pure state transformer.
Machine integers are modelled as `Nat` with explicit wrap-around (`% 2^32` for
`u32` increments, `% 2^64` for the `u64` subtraction in `allow_request`),
matching the release-build (wrapping) semantics of the shipped wasm artifact.
-/

namespace AgenticWasm

/-- `u32` modulus. -/
def U32 : Nat := 2 ^ 32

/-- `u64` modulus. -/
def U64 : Nat := 2 ^ 64

/-- Wrapping `u64` subtraction `a - b` for `a b < U64`
(release-mode semantics of Rust `u64` subtraction). -/
def wrapSub64 (a b : Nat) : Nat := (a + U64 - b) % U64

/-- The three breaker modes, from `enum BreakerState` in the source. -/
inductive BreakerState where
  | Closed
  | Open
  | HalfOpen
deriving DecidableEq

/-- `BreakerState::as_str` from the source. -/
def BreakerState.as_str : BreakerState → String
  | BreakerState.Closed => "closed"
  | BreakerState.Open => "open"
  | BreakerState.HalfOpen => "half_open"

/-- The breaker state record, from `struct CircuitBreakerState` in the source.
`u32` and `u64` fields are modelled as `Nat`, `Option<u64>` as `Option Nat`. -/
structure CircuitBreakerState where
  state : BreakerState
  failure_count : Nat
  success_count : Nat
  failure_threshold : Nat
  recovery_timeout : Nat
  last_failure_time : Option Nat
  half_open_calls : Nat
  half_open_max : Nat
deriving DecidableEq

/-- `CircuitBreakerState::new` from the source: closed, zero counters,
no failure recorded, `half_open_max = 3`. -/
def CircuitBreakerState.new (failure_threshold recovery_timeout : Nat) :
    CircuitBreakerState where
  state := BreakerState.Closed
  failure_count := 0
  success_count := 0
  failure_threshold := failure_threshold
  recovery_timeout := recovery_timeout
  last_failure_time := none
  half_open_calls := 0
  half_open_max := 3

/-- The state installed at module initialization:
`CircuitBreakerState::new(5, 60)`. -/
def initState : CircuitBreakerState := CircuitBreakerState.new 5 60

/-- `init_breaker` from the source: overwrite the thresholds, return to
`Closed`, zero `failure_count` and `success_count` (it touches neither
`half_open_calls` nor `last_failure_time`). -/
def init_breaker (failure_threshold recovery_timeout : Nat)
    (b : CircuitBreakerState) : CircuitBreakerState :=
  { b with
      failure_threshold := failure_threshold
      recovery_timeout := recovery_timeout
      state := BreakerState.Closed
      failure_count := 0
      success_count := 0 }

/-- `allow_request` from the source.  If the breaker is `Open` and a failure
time is recorded, `elapsed_secs = (current_time_ms - last_failure) / 1000`
(wrapping `u64` subtraction) is compared to `recovery_timeout`; on expiry the
state becomes `HalfOpen` with `half_open_calls` and `success_count` reset.
The result is the returned boolean paired with the updated state. -/
def allow_request (current_time_ms : Nat) (b : CircuitBreakerState) :
    Bool × CircuitBreakerState :=
  let b1 :=
    if b.state = BreakerState.Open then
      match b.last_failure_time with
      | some last_failure =>
          let elapsed_secs := wrapSub64 current_time_ms last_failure / 1000
          if elapsed_secs ≥ b.recovery_timeout then
            { b with
                state := BreakerState.HalfOpen
                half_open_calls := 0
                success_count := 0 }
          else b
      | none => b
    else b
  match b1.state with
  | BreakerState.Closed => (true, b1)
  | BreakerState.Open => (false, b1)
  | BreakerState.HalfOpen =>
      if b1.half_open_calls < b1.half_open_max then
        (true, { b1 with half_open_calls := (b1.half_open_calls + 1) % U32 })
      else
        (false, b1)

/-- `record_success` from the source: increment `success_count` (wrapping
`u32`), then close the breaker when `HalfOpen` and the incremented count has
reached `half_open_max`. -/
def record_success (b : CircuitBreakerState) : CircuitBreakerState :=
  let b1 := { b with success_count := (b.success_count + 1) % U32 }
  if b1.state = BreakerState.HalfOpen then
    if b1.success_count ≥ b1.half_open_max then
      { b1 with
          state := BreakerState.Closed
          failure_count := 0
          success_count := 0 }
    else b1
  else b1

/-- `record_failure` from the source: increment `failure_count` (wrapping
`u32`) and stamp `last_failure_time`, then trip to `Open` when `HalfOpen`, or
when the incremented count has reached `failure_threshold`. -/
def record_failure (current_time_ms : Nat) (b : CircuitBreakerState) :
    CircuitBreakerState :=
  let b1 := { b with
      failure_count := (b.failure_count + 1) % U32
      last_failure_time := some current_time_ms }
  if b1.state = BreakerState.HalfOpen then
    { b1 with state := BreakerState.Open }
  else if b1.failure_count ≥ b1.failure_threshold then
    { b1 with state := BreakerState.Open }
  else b1

/-- `get_status` from the source: a read-only JSON snapshot of the state tag
and the two counters. -/
def get_status (b : CircuitBreakerState) : String :=
  "\x7b\"state\":\"" ++ b.state.as_str ++ "\",\"failures\":"
    ++ toString b.failure_count ++ ",\"successes\":"
    ++ toString b.success_count ++ "\x7d"

/-- `force_open` from the source: unconditionally `Open` with
`last_failure_time` stamped; counters untouched. -/
def force_open (current_time_ms : Nat) (b : CircuitBreakerState) :
    CircuitBreakerState :=
  { b with
      state := BreakerState.Open
      last_failure_time := some current_time_ms }

/-- `reset_breaker` from the source: back to `Closed`, all counters zero,
`last_failure_time` cleared; thresholds preserved. -/
def reset_breaker (b : CircuitBreakerState) : CircuitBreakerState :=
  { b with
      state := BreakerState.Closed
      failure_count := 0
      success_count := 0
      half_open_calls := 0
      last_failure_time := none }

/-- One exported call together with its arguments. -/
inductive Op where
  | allowRequest (t : Nat)
  | recordSuccess
  | recordFailure (t : Nat)
  | forceOpen (t : Nat)
  | initBreaker (ft rt : Nat)
  | getStatus
  | resetBreaker
deriving DecidableEq

/-- The state transformation of one exported call (`get_status` is read-only,
`allow_request` contributes its state component). -/
def applyOp (b : CircuitBreakerState) : Op → CircuitBreakerState
  | Op.allowRequest t => (allow_request t b).2
  | Op.recordSuccess => record_success b
  | Op.recordFailure t => record_failure t b
  | Op.forceOpen t => force_open t b
  | Op.initBreaker ft rt => init_breaker ft rt b
  | Op.getStatus => b
  | Op.resetBreaker => reset_breaker b

/-- Machine-representable arguments: `u64` timestamps and timeouts, `u32`
thresholds. -/
def OpWF : Op → Prop
  | Op.allowRequest t => t < U64
  | Op.recordSuccess => True
  | Op.recordFailure t => t < U64
  | Op.forceOpen t => t < U64
  | Op.initBreaker ft rt => ft < U32 ∧ rt < U64
  | Op.getStatus => True
  | Op.resetBreaker => True

instance (op : Op) : Decidable (OpWF op) := by
  cases op <;> unfold OpWF <;> infer_instance

/-- States reachable from the initially installed breaker by exported calls
with machine-representable arguments. -/
inductive Reachable : CircuitBreakerState → Prop where
  | init : Reachable initState
  | next (b : CircuitBreakerState) (op : Op) :
      Reachable b → OpWF op → Reachable (applyOp b op)

/-- A sequence of `record_failure` calls with the given timestamps. -/
def runFailures (b : CircuitBreakerState) : List Nat → CircuitBreakerState
  | [] => b
  | t :: ts => runFailures (record_failure t b) ts

/-- `n` consecutive `record_success` calls. -/
def applySuccesses : Nat → CircuitBreakerState → CircuitBreakerState
  | 0, b => b
  | n + 1, b => applySuccesses n (record_success b)

/-- Number of `allow_request` calls in the sequence that return `true` when
executed in order from `b`. -/
def admitted (b : CircuitBreakerState) : List Op → Nat
  | [] => 0
  | op :: ops =>
      (match op with
       | Op.allowRequest t => if (allow_request t b).1 then 1 else 0
       | _ => 0) + admitted (applyOp b op) ops

/-- Every state along the execution of the sequence from `b` (after each
call) is still `HalfOpen`. -/
def staysHalfOpen (b : CircuitBreakerState) : List Op → Prop
  | [] => True
  | op :: ops =>
      (applyOp b op).state = BreakerState.HalfOpen ∧
      staysHalfOpen (applyOp b op) ops

/-- All counters and timestamps fit their machine width (`u32` counters and
thresholds, `u64` timeout and timestamps). -/
def MachineWF (b : CircuitBreakerState) : Prop :=
  b.failure_count < U32 ∧ b.success_count < U32 ∧ b.failure_threshold < U32 ∧
  b.recovery_timeout < U64 ∧ b.half_open_calls < U32 ∧ b.half_open_max < U32 ∧
  (∀ T, b.last_failure_time = some T → T < U64)

/-- Reachability invariant: the trial cap is the constant 3, the granted-trial
counter never exceeds it, and a non-`Closed` breaker has a recorded failure
time. -/
def Inv (b : CircuitBreakerState) : Prop :=
  b.half_open_max = 3 ∧ b.half_open_calls ≤ 3 ∧
  (b.state ≠ BreakerState.Closed → b.last_failure_time ≠ none)

lemma U32_pos : 0 < U32 := by norm_num [U32]

lemma one_mod_U32 : 1 % U32 = 1 := by norm_num [U32]

lemma wrapSub64_self (t : Nat) : wrapSub64 t t = 0 := by
  unfold wrapSub64
  have h : t + U64 - t = U64 := by omega
  rw [h, Nat.mod_self]

lemma wrapSub64_of_le {a b : Nat} (h : b ≤ a) (ha : a < U64) :
    wrapSub64 a b = a - b := by
  unfold wrapSub64
  have h1 : a + U64 - b = (a - b) + U64 := by omega
  rw [h1, Nat.add_mod_right]
  exact Nat.mod_eq_of_lt (by omega)

lemma wrapSub64_of_lt {a b : Nat} (h : a < b) (hb : b ≤ U64) :
    wrapSub64 a b = U64 - (b - a) := by
  unfold wrapSub64
  have h1 : a + U64 - b = U64 - (b - a) := by omega
  rw [h1]
  exact Nat.mod_eq_of_lt (by omega)

lemma allow_request_closed (t : Nat) (b : CircuitBreakerState)
    (hb : b.state = BreakerState.Closed) : allow_request t b = (true, b) := by
  simp [allow_request, hb]

lemma allow_request_open_none (t : Nat) (b : CircuitBreakerState)
    (hb : b.state = BreakerState.Open) (hl : b.last_failure_time = none) :
    allow_request t b = (false, b) := by
  simp [allow_request, hb, hl]

lemma allow_request_open_stay (t T : Nat) (b : CircuitBreakerState)
    (hb : b.state = BreakerState.Open) (hl : b.last_failure_time = some T)
    (h : wrapSub64 t T / 1000 < b.recovery_timeout) :
    allow_request t b = (false, b) := by
  simp [allow_request, hb, hl, Nat.not_le.mpr h]

lemma allow_request_open_go (t T : Nat) (b : CircuitBreakerState)
    (hb : b.state = BreakerState.Open) (hl : b.last_failure_time = some T)
    (h : b.recovery_timeout ≤ wrapSub64 t T / 1000) (hm : 0 < b.half_open_max) :
    allow_request t b =
      (true, { b with
          state := BreakerState.HalfOpen
          success_count := 0
          half_open_calls := 1 }) := by
  simp [allow_request, hb, hl, h, hm, one_mod_U32]

lemma allow_request_halfOpen_lt (t : Nat) (b : CircuitBreakerState)
    (hb : b.state = BreakerState.HalfOpen)
    (h : b.half_open_calls < b.half_open_max) :
    allow_request t b =
      (true, { b with half_open_calls := (b.half_open_calls + 1) % U32 }) := by
  simp [allow_request, hb, h]

lemma allow_request_halfOpen_ge (t : Nat) (b : CircuitBreakerState)
    (hb : b.state = BreakerState.HalfOpen)
    (h : b.half_open_max ≤ b.half_open_calls) :
    allow_request t b = (false, b) := by
  simp [allow_request, hb, Nat.not_lt.mpr h]

lemma record_success_not_halfOpen (b : CircuitBreakerState)
    (hb : b.state ≠ BreakerState.HalfOpen) :
    record_success b = { b with success_count := (b.success_count + 1) % U32 } := by
  simp [record_success, hb]

lemma record_success_halfOpen_lt (b : CircuitBreakerState)
    (hb : b.state = BreakerState.HalfOpen)
    (h : (b.success_count + 1) % U32 < b.half_open_max) :
    record_success b = { b with success_count := (b.success_count + 1) % U32 } := by
  simp [record_success, hb, Nat.not_le.mpr h]

lemma record_success_halfOpen_ge (b : CircuitBreakerState)
    (hb : b.state = BreakerState.HalfOpen)
    (h : b.half_open_max ≤ (b.success_count + 1) % U32) :
    record_success b =
      { b with
          state := BreakerState.Closed
          failure_count := 0
          success_count := 0 } := by
  simp [record_success, hb, h]

lemma record_failure_halfOpen (t : Nat) (b : CircuitBreakerState)
    (hb : b.state = BreakerState.HalfOpen) :
    record_failure t b =
      { b with
          state := BreakerState.Open
          failure_count := (b.failure_count + 1) % U32
          last_failure_time := some t } := by
  simp [record_failure, hb]

lemma record_failure_trip (t : Nat) (b : CircuitBreakerState)
    (hb : b.state ≠ BreakerState.HalfOpen)
    (h : b.failure_threshold ≤ (b.failure_count + 1) % U32) :
    record_failure t b =
      { b with
          state := BreakerState.Open
          failure_count := (b.failure_count + 1) % U32
          last_failure_time := some t } := by
  simp [record_failure, hb, h]

lemma record_failure_stay (t : Nat) (b : CircuitBreakerState)
    (hb : b.state ≠ BreakerState.HalfOpen)
    (h : (b.failure_count + 1) % U32 < b.failure_threshold) :
    record_failure t b =
      { b with
          failure_count := (b.failure_count + 1) % U32
          last_failure_time := some t } := by
  simp [record_failure, hb, Nat.not_le.mpr h]

lemma allow_request_open_go_cap (t T : Nat) (b : CircuitBreakerState)
    (hb : b.state = BreakerState.Open) (hl : b.last_failure_time = some T)
    (h : b.recovery_timeout ≤ wrapSub64 t T / 1000) (hm : b.half_open_max = 0) :
    allow_request t b =
      (false, { b with
          state := BreakerState.HalfOpen
          success_count := 0
          half_open_calls := 0 }) := by
  simp [allow_request, hb, hl, h, hm]

lemma four_le_U32 : 4 ≤ U32 := by norm_num [U32]

lemma inv_allow_request (t : Nat) (b : CircuitBreakerState) (hInv : Inv b) :
    Inv (allow_request t b).2 := by
  obtain ⟨hm3, hoc3, hlf⟩ := hInv
  cases hst : b.state with
  | Closed => rw [allow_request_closed t b hst]; exact ⟨hm3, hoc3, hlf⟩
  | Open =>
      have hne : b.last_failure_time ≠ none := hlf (by rw [hst]; simp)
      obtain ⟨T, hT⟩ := Option.ne_none_iff_exists'.mp hne
      by_cases hdue : b.recovery_timeout ≤ wrapSub64 t T / 1000
      · rw [allow_request_open_go t T b hst hT hdue (by omega)]
        refine ⟨hm3, by norm_num, fun _ => ?_⟩
        simp [hT]
      · rw [allow_request_open_stay t T b hst hT (Nat.not_le.mp hdue)]
        exact ⟨hm3, hoc3, hlf⟩
  | HalfOpen =>
      by_cases hlt : b.half_open_calls < b.half_open_max
      · rw [allow_request_halfOpen_lt t b hst hlt]
        have hsm : (b.half_open_calls + 1) % U32 = b.half_open_calls + 1 :=
          Nat.mod_eq_of_lt (by have := four_le_U32; omega)
        refine ⟨hm3, ?_, fun _ => hlf (by rw [hst]; simp)⟩
        simp only [hsm]
        omega
      · rw [allow_request_halfOpen_ge t b hst (Nat.not_lt.mp hlt)]
        exact ⟨hm3, hoc3, hlf⟩

lemma inv_record_success (b : CircuitBreakerState) (hInv : Inv b) :
    Inv (record_success b) := by
  obtain ⟨hm3, hoc3, hlf⟩ := hInv
  by_cases hst : b.state = BreakerState.HalfOpen
  · by_cases hge : b.half_open_max ≤ (b.success_count + 1) % U32
    · rw [record_success_halfOpen_ge b hst hge]
      exact ⟨hm3, hoc3, fun h => absurd rfl h⟩
    · rw [record_success_halfOpen_lt b hst (Nat.not_le.mp hge)]
      exact ⟨hm3, hoc3, hlf⟩
  · rw [record_success_not_halfOpen b hst]
    exact ⟨hm3, hoc3, hlf⟩

lemma inv_record_failure (t : Nat) (b : CircuitBreakerState) (hInv : Inv b) :
    Inv (record_failure t b) := by
  obtain ⟨hm3, hoc3, _⟩ := hInv
  by_cases hst : b.state = BreakerState.HalfOpen
  · rw [record_failure_halfOpen t b hst]
    exact ⟨hm3, hoc3, fun _ => by simp⟩
  · by_cases hge : b.failure_threshold ≤ (b.failure_count + 1) % U32
    · rw [record_failure_trip t b hst hge]
      exact ⟨hm3, hoc3, fun _ => by simp⟩
    · rw [record_failure_stay t b hst (Nat.not_le.mp hge)]
      exact ⟨hm3, hoc3, fun _ => by simp⟩

lemma inv_applyOp (b : CircuitBreakerState) (op : Op) (hInv : Inv b) :
    Inv (applyOp b op) := by
  obtain ⟨hm3, hoc3, hlf⟩ := hInv
  cases op with
  | allowRequest t => exact inv_allow_request t b ⟨hm3, hoc3, hlf⟩
  | recordSuccess => exact inv_record_success b ⟨hm3, hoc3, hlf⟩
  | recordFailure t => exact inv_record_failure t b ⟨hm3, hoc3, hlf⟩
  | forceOpen t => exact ⟨hm3, hoc3, fun _ => by simp [applyOp, force_open]⟩
  | initBreaker ft rt =>
      exact ⟨hm3, hoc3, fun h => absurd rfl h⟩
  | getStatus => exact ⟨hm3, hoc3, hlf⟩
  | resetBreaker => exact ⟨hm3, Nat.zero_le 3, fun h => absurd rfl h⟩

lemma reachable_inv {b : CircuitBreakerState} (hb : Reachable b) : Inv b := by
  induction hb with
  | init =>
      exact ⟨rfl, Nat.zero_le 3, fun h => absurd rfl h⟩
  | next b op _ _ ih => exact inv_applyOp b op ih

lemma mwf_allow_request (t : Nat) (b : CircuitBreakerState) (h : MachineWF b) :
    MachineWF (allow_request t b).2 := by
  obtain ⟨h1, h2, h3, h4, h5, h6, h7⟩ := h
  cases hst : b.state with
  | Closed =>
      rw [allow_request_closed t b hst]; exact ⟨h1, h2, h3, h4, h5, h6, h7⟩
  | Open =>
      cases hT : b.last_failure_time with
      | none =>
          rw [allow_request_open_none t b hst hT]
          exact ⟨h1, h2, h3, h4, h5, h6, h7⟩
      | some T =>
          by_cases hdue : b.recovery_timeout ≤ wrapSub64 t T / 1000
          · by_cases hm : 0 < b.half_open_max
            · rw [allow_request_open_go t T b hst hT hdue hm]
              exact ⟨h1, U32_pos, h3, h4,
                lt_of_lt_of_le (by norm_num) four_le_U32, h6, h7⟩
            · rw [allow_request_open_go_cap t T b hst hT hdue (by omega)]
              exact ⟨h1, U32_pos, h3, h4, U32_pos, h6, h7⟩
          · rw [allow_request_open_stay t T b hst hT (Nat.not_le.mp hdue)]
            exact ⟨h1, h2, h3, h4, h5, h6, h7⟩
  | HalfOpen =>
      by_cases hlt : b.half_open_calls < b.half_open_max
      · rw [allow_request_halfOpen_lt t b hst hlt]
        exact ⟨h1, h2, h3, h4, Nat.mod_lt _ U32_pos, h6, h7⟩
      · rw [allow_request_halfOpen_ge t b hst (Nat.not_lt.mp hlt)]
        exact ⟨h1, h2, h3, h4, h5, h6, h7⟩

lemma mwf_record_success (b : CircuitBreakerState) (h : MachineWF b) :
    MachineWF (record_success b) := by
  obtain ⟨h1, h2, h3, h4, h5, h6, h7⟩ := h
  by_cases hst : b.state = BreakerState.HalfOpen
  · by_cases hge : b.half_open_max ≤ (b.success_count + 1) % U32
    · rw [record_success_halfOpen_ge b hst hge]
      exact ⟨U32_pos, U32_pos, h3, h4, h5, h6, h7⟩
    · rw [record_success_halfOpen_lt b hst (Nat.not_le.mp hge)]
      exact ⟨h1, Nat.mod_lt _ U32_pos, h3, h4, h5, h6, h7⟩
  · rw [record_success_not_halfOpen b hst]
    exact ⟨h1, Nat.mod_lt _ U32_pos, h3, h4, h5, h6, h7⟩

lemma mwf_record_failure (t : Nat) (b : CircuitBreakerState) (ht : t < U64)
    (h : MachineWF b) : MachineWF (record_failure t b) := by
  obtain ⟨h1, h2, h3, h4, h5, h6, h7⟩ := h
  have hlast : ∀ T : Nat, some t = some T → T < U64 := by
    intro T hT
    injection hT with e
    omega
  by_cases hst : b.state = BreakerState.HalfOpen
  · rw [record_failure_halfOpen t b hst]
    exact ⟨Nat.mod_lt _ U32_pos, h2, h3, h4, h5, h6, hlast⟩
  · by_cases hge : b.failure_threshold ≤ (b.failure_count + 1) % U32
    · rw [record_failure_trip t b hst hge]
      exact ⟨Nat.mod_lt _ U32_pos, h2, h3, h4, h5, h6, hlast⟩
    · rw [record_failure_stay t b hst (Nat.not_le.mp hge)]
      exact ⟨Nat.mod_lt _ U32_pos, h2, h3, h4, h5, h6, hlast⟩

lemma mwf_force_open (t : Nat) (b : CircuitBreakerState) (ht : t < U64)
    (h : MachineWF b) : MachineWF (force_open t b) := by
  obtain ⟨h1, h2, h3, h4, h5, h6, _⟩ := h
  refine ⟨h1, h2, h3, h4, h5, h6, ?_⟩
  intro T hT
  injection hT with e
  omega

lemma mwf_init_breaker (ft rt : Nat) (b : CircuitBreakerState)
    (hft : ft < U32) (hrt : rt < U64) (h : MachineWF b) :
    MachineWF (init_breaker ft rt b) := by
  obtain ⟨_, _, _, _, h5, h6, h7⟩ := h
  exact ⟨U32_pos, U32_pos, hft, hrt, h5, h6, h7⟩

lemma mwf_reset_breaker (b : CircuitBreakerState) (h : MachineWF b) :
    MachineWF (reset_breaker b) := by
  obtain ⟨_, _, h3, h4, _, h6, _⟩ := h
  exact ⟨U32_pos, U32_pos, h3, h4, U32_pos, h6,
    fun T hT => by simp [reset_breaker] at hT⟩

/-- Claim C1: every exported operation is total.  On machine-representable
states and inputs every operation returns and yields a machine-representable
state; in particular `allow_request` is well-defined even when
`current_time_ms` is smaller than the stored `last_failure_time`, where the
wrapping `u64` subtraction evaluates to `U64 - (T - t)` and is divided by 1000
before the comparison with `recovery_timeout`. -/
theorem claim_C1_operations_total (b : CircuitBreakerState)
    (hWF : MachineWF b) :
    (∀ t, t < U64 →
        MachineWF (allow_request t b).2 ∧ MachineWF (record_failure t b) ∧
        MachineWF (force_open t b)) ∧
    MachineWF (record_success b) ∧
    MachineWF (reset_breaker b) ∧
    (∀ ft rt, ft < U32 → rt < U64 → MachineWF (init_breaker ft rt b)) ∧
    (∀ t T, t < U64 → b.state = BreakerState.Open →
        b.last_failure_time = some T → t < T →
        (allow_request t b).2.state =
          (if b.recovery_timeout ≤ (U64 - (T - t)) / 1000
           then BreakerState.HalfOpen else BreakerState.Open)) := by
  refine ⟨fun t ht => ⟨mwf_allow_request t b hWF, mwf_record_failure t b ht hWF,
      mwf_force_open t b ht hWF⟩,
    mwf_record_success b hWF, mwf_reset_breaker b hWF,
    fun ft rt hft hrt => mwf_init_breaker ft rt b hft hrt hWF, ?_⟩
  intro t T ht hst hT hlt
  have hTU : T < U64 := hWF.2.2.2.2.2.2 T hT
  have hw : wrapSub64 t T = U64 - (T - t) := wrapSub64_of_lt hlt (le_of_lt hTU)
  by_cases hdue : b.recovery_timeout ≤ (U64 - (T - t)) / 1000
  · rw [if_pos hdue]
    by_cases hm : 0 < b.half_open_max
    · rw [allow_request_open_go t T b hst hT (by rw [hw]; exact hdue) hm]
    · rw [allow_request_open_go_cap t T b hst hT (by rw [hw]; exact hdue)
        (by omega)]
  · rw [if_neg hdue,
      allow_request_open_stay t T b hst hT (by rw [hw]; exact Nat.not_le.mp hdue)]
    exact hst

theorem claim_C1_operations_total_witness :
    MachineWF initState ∧ MachineWF (record_success initState) := by
  have hWF : MachineWF initState := by
    refine ⟨?_, ?_, ?_, ?_, ?_, ?_, ?_⟩ <;>
      simp [initState, CircuitBreakerState.new, U32, U64]
  exact ⟨hWF, (claim_C1_operations_total initState hWF).2.1⟩

/-- Claim C2: recovery timing.  With the breaker `Open` and
`last_failure_time = some T`, any admission check at `T ≤ t <
T + recovery_timeout*1000` returns `false` and leaves the state untouched;
at `t ≥ T + recovery_timeout*1000` the breaker moves to `HalfOpen` with
`success_count` reset to 0 and the call itself is granted as the first trial
(so `half_open_calls`, reset to 0 by the transition, is 1 after the grant).
The cap `half_open_max` is the constant 3 in every reachable state, hence
positive. -/
theorem claim_C2_recovery_timing (b : CircuitBreakerState) (T : Nat)
    (hb : b.state = BreakerState.Open)
    (hl : b.last_failure_time = some T) :
    (∀ t, T ≤ t → t < U64 → t < T + b.recovery_timeout * 1000 →
        allow_request t b = (false, b)) ∧
    (∀ t, t < U64 → T + b.recovery_timeout * 1000 ≤ t → 0 < b.half_open_max →
        allow_request t b =
          (true, { b with
              state := BreakerState.HalfOpen
              success_count := 0
              half_open_calls := 1 })) := by
  constructor
  · intro t hTt htU hlt
    apply allow_request_open_stay t T b hb hl
    rw [wrapSub64_of_le hTt htU]
    exact Nat.div_lt_of_lt_mul (by omega)
  · intro t htU hge hm
    apply allow_request_open_go t T b hb hl ?_ hm
    rw [wrapSub64_of_le (by omega) htU]
    exact (Nat.le_div_iff_mul_le (by norm_num)).mpr (by omega)

theorem claim_C2_recovery_timing_witness :
    ((force_open 0 initState).state = BreakerState.Open ∧
     (force_open 0 initState).last_failure_time = some 0) ∧
    allow_request 5000 (force_open 0 initState) = (false, force_open 0 initState) ∧
    (allow_request 60000 (force_open 0 initState)).1 = true := by
  refine ⟨⟨rfl, rfl⟩, ?_, ?_⟩
  · exact (claim_C2_recovery_timing (force_open 0 initState) 0 rfl rfl).1
      5000 (by decide) (by decide) (by decide)
  · rw [(claim_C2_recovery_timing (force_open 0 initState) 0 rfl rfl).2
      60000 (by decide) (by decide) (by decide)]

/-- Claim C4, counterexample to the claim as stated: after
`init_breaker(5, 0)` (a permitted configuration, `recovery_timeout = 0`),
`force_open(0)` followed immediately by `allow_request(0)` returns `true`,
not `false`: the elapsed time 0 already meets the zero recovery timeout, so
the breaker moves to `HalfOpen` and grants a trial. -/
theorem claim_C4_counterexample :
    ¬ ((allow_request 0 (force_open 0 (init_breaker 5 0 initState))).1
        = false) := by
  decide

/-- Claim C4, amended: `force_open t` from any state yields `state = Open`
and `last_failure_time = some t` and leaves the three counters unchanged;
provided `recovery_timeout ≥ 1`, an immediately following `allow_request t`
returns `false` and changes nothing. -/
theorem claim_C4_force_open_amended (b : CircuitBreakerState) (t : Nat) :
    (force_open t b).state = BreakerState.Open ∧
    (force_open t b).last_failure_time = some t ∧
    (force_open t b).failure_count = b.failure_count ∧
    (force_open t b).success_count = b.success_count ∧
    (force_open t b).half_open_calls = b.half_open_calls ∧
    (1 ≤ b.recovery_timeout →
      allow_request t (force_open t b) = (false, force_open t b)) := by
  refine ⟨rfl, rfl, rfl, rfl, rfl, ?_⟩
  intro hrt
  apply allow_request_open_stay t t _ rfl rfl
  rw [wrapSub64_self]
  simp only [Nat.zero_div]
  simpa [force_open] using hrt

theorem claim_C4_force_open_amended_witness :
    1 ≤ initState.recovery_timeout ∧
    allow_request 7 (force_open 7 initState) = (false, force_open 7 initState) := by
  exact ⟨by decide,
    (claim_C4_force_open_amended initState 7).2.2.2.2.2 (by decide)⟩

/-- Claim C7: a single `record_failure t` while `HalfOpen` trips the breaker
straight to `Open` and stamps `last_failure_time = some t`, for every value of
`failure_count` and every configured `failure_threshold`. -/
theorem claim_C7_halfOpen_retrip (b : CircuitBreakerState) (t : Nat)
    (hb : b.state = BreakerState.HalfOpen) :
    (record_failure t b).state = BreakerState.Open ∧
    (record_failure t b).last_failure_time = some t := by
  rw [record_failure_halfOpen t b hb]
  exact ⟨rfl, rfl⟩

theorem claim_C7_halfOpen_retrip_witness :
    (CircuitBreakerState.mk BreakerState.HalfOpen 0 0 5 60 (some 0) 1 3).state
      = BreakerState.HalfOpen ∧
    ((record_failure 9
        (CircuitBreakerState.mk BreakerState.HalfOpen 0 0 5 60 (some 0) 1 3)).state
      = BreakerState.Open ∧
     (record_failure 9
        (CircuitBreakerState.mk BreakerState.HalfOpen 0 0 5 60 (some 0) 1 3)).last_failure_time
      = some 9) :=
  ⟨rfl, claim_C7_halfOpen_retrip _ 9 rfl⟩

/-- Claim C8: `reset_breaker` from any state yields `Closed` with all three
counters zero and `last_failure_time` cleared, preserves the configured
thresholds, admits every request afterwards without changing the state, and
is idempotent. -/
theorem claim_C8_reset (b : CircuitBreakerState) :
    (reset_breaker b).state = BreakerState.Closed ∧
    (reset_breaker b).failure_count = 0 ∧
    (reset_breaker b).success_count = 0 ∧
    (reset_breaker b).half_open_calls = 0 ∧
    (reset_breaker b).last_failure_time = none ∧
    (reset_breaker b).failure_threshold = b.failure_threshold ∧
    (reset_breaker b).recovery_timeout = b.recovery_timeout ∧
    (∀ t, allow_request t (reset_breaker b) = (true, reset_breaker b)) ∧
    reset_breaker (reset_breaker b) = reset_breaker b := by
  refine ⟨rfl, rfl, rfl, rfl, rfl, rfl, rfl, fun t => ?_, rfl⟩
  exact allow_request_closed t _ rfl

lemma runFailures_closed (ts : List Nat) :
    ∀ b : CircuitBreakerState, b.state = BreakerState.Closed →
      b.failure_count + ts.length < b.failure_threshold →
      b.failure_threshold < U32 →
      (runFailures b ts).state = BreakerState.Closed ∧
      (runFailures b ts).failure_count = b.failure_count + ts.length ∧
      (runFailures b ts).failure_threshold = b.failure_threshold ∧
      (runFailures b ts).recovery_timeout = b.recovery_timeout := by
  induction ts with
  | nil =>
      intro b hst _ _
      exact ⟨hst, by simp [runFailures], rfl, rfl⟩
  | cons t ts ih =>
      intro b hst hcount hft
      have hnotHO : b.state ≠ BreakerState.HalfOpen := by rw [hst]; simp
      have hcount' : b.failure_count + (ts.length + 1) < b.failure_threshold := by
        simpa [List.length_cons] using hcount
      have h1 : (b.failure_count + 1) % U32 = b.failure_count + 1 :=
        Nat.mod_eq_of_lt (by omega)
      have hlt : (b.failure_count + 1) % U32 < b.failure_threshold := by
        rw [h1]; omega
      have hstep : runFailures b (t :: ts) =
          runFailures (record_failure t b) ts := rfl
      rw [hstep, record_failure_stay t b hnotHO hlt]
      obtain ⟨c1, c2, c3, c4⟩ := ih
        { b with
            failure_count := (b.failure_count + 1) % U32
            last_failure_time := some t }
        hst
        (by show (b.failure_count + 1) % U32 + ts.length < b.failure_threshold
            rw [h1]; omega)
        hft
      refine ⟨c1, ?_, c3, c4⟩
      rw [c2]
      show (b.failure_count + 1) % U32 + ts.length
        = b.failure_count + (t :: ts).length
      rw [h1, List.length_cons]
      omega

/-- Claim C3: threshold trip.  From `Closed` with `failure_count = 0` and
`failure_threshold = N ≥ 1` (a `u32`), any `N-1` `record_failure` calls leave
the breaker `Closed` and admitting; one further `record_failure` trips it to
`Open`, and until the recovery timeout elapses every `allow_request` returns
`false` without changing the state. -/
theorem claim_C3_threshold_trip (b : CircuitBreakerState) (N : Nat)
    (hst : b.state = BreakerState.Closed) (hfc : b.failure_count = 0)
    (hft : b.failure_threshold = N) (hN : 1 ≤ N) (hNU : N < U32) :
    ∀ ts : List Nat, ts.length = N - 1 →
      (runFailures b ts).state = BreakerState.Closed ∧
      (∀ t, allow_request t (runFailures b ts) = (true, runFailures b ts)) ∧
      (∀ tN,
        (record_failure tN (runFailures b ts)).state = BreakerState.Open ∧
        (record_failure tN (runFailures b ts)).last_failure_time = some tN ∧
        (∀ t, tN ≤ t → t < U64 → t < tN + b.recovery_timeout * 1000 →
          allow_request t (record_failure tN (runFailures b ts)) =
            (false, record_failure tN (runFailures b ts)))) := by
  intro ts hlen
  obtain ⟨c1, c2, c3, c4⟩ := runFailures_closed ts b hst
    (by rw [hfc, hlen, hft]; omega) (by rw [hft]; exact hNU)
  refine ⟨c1, fun t => allow_request_closed t _ c1, fun tN => ?_⟩
  have hnotHO : (runFailures b ts).state ≠ BreakerState.HalfOpen := by
    rw [c1]; simp
  have hsum : (runFailures b ts).failure_count + 1 = N := by
    rw [c2, hfc, hlen]; omega
  have hmod : ((runFailures b ts).failure_count + 1) % U32 = N := by
    rw [hsum]; exact Nat.mod_eq_of_lt hNU
  have hge : (runFailures b ts).failure_threshold ≤
      ((runFailures b ts).failure_count + 1) % U32 := by
    rw [hmod, c3, hft]
  rw [record_failure_trip tN (runFailures b ts) hnotHO hge]
  refine ⟨rfl, rfl, fun t h1 h2 h3 => ?_⟩
  apply allow_request_open_stay t tN _ rfl rfl
  rw [wrapSub64_of_le h1 h2]
  show (t - tN) / 1000 < (runFailures b ts).recovery_timeout
  rw [c4]
  exact Nat.div_lt_of_lt_mul (by omega)

theorem claim_C3_threshold_trip_witness :
    ((init_breaker 3 60 initState).state = BreakerState.Closed ∧
     (init_breaker 3 60 initState).failure_count = 0 ∧
     (init_breaker 3 60 initState).failure_threshold = 3 ∧
     1 ≤ 3 ∧ 3 < U32 ∧ ([1000, 2000] : List Nat).length = 3 - 1) ∧
    (runFailures (init_breaker 3 60 initState) [1000, 2000]).state
      = BreakerState.Closed ∧
    allow_request 3000 (runFailures (init_breaker 3 60 initState) [1000, 2000])
      = (true, runFailures (init_breaker 3 60 initState) [1000, 2000]) ∧
    (record_failure 3000
        (runFailures (init_breaker 3 60 initState) [1000, 2000])).state
      = BreakerState.Open ∧
    allow_request 4000
        (record_failure 3000
          (runFailures (init_breaker 3 60 initState) [1000, 2000]))
      = (false, record_failure 3000
          (runFailures (init_breaker 3 60 initState) [1000, 2000])) := by
  obtain ⟨c1, c2, c3⟩ := claim_C3_threshold_trip (init_breaker 3 60 initState) 3
    rfl rfl rfl (by decide) (by decide) [1000, 2000] rfl
  exact ⟨⟨rfl, rfl, rfl, by decide, by decide, rfl⟩, c1, c2 3000,
    (c3 3000).1, (c3 3000).2.2 4000 (by decide) (by decide) (by decide)⟩

/-- Claim C6: half-open close.  From a freshly entered `HalfOpen` state
(`success_count = 0`, the trial cap at its fixed value 3), fewer than
`half_open_max` consecutive `record_success` calls leave the breaker
`HalfOpen`; the `half_open_max`-th transitions it to `Closed` and zeroes both
`failure_count` and `success_count`. -/
theorem claim_C6_halfOpen_close (b : CircuitBreakerState)
    (hb : b.state = BreakerState.HalfOpen) (hsc : b.success_count = 0)
    (hm : b.half_open_max = 3) :
    (∀ k, k < 3 → (applySuccesses k b).state = BreakerState.HalfOpen) ∧
    (applySuccesses 3 b).state = BreakerState.Closed ∧
    (applySuccesses 3 b).failure_count = 0 ∧
    (applySuccesses 3 b).success_count = 0 := by
  have e1 : record_success b = { b with success_count := 1 } := by
    simp [record_success, hb, hsc, hm, U32]
  have e2 : record_success { b with success_count := 1 }
      = { b with success_count := 2 } := by
    simp [record_success, hb, hm, U32]
  have e3 : record_success { b with success_count := 2 }
      = { b with
          state := BreakerState.Closed
          failure_count := 0
          success_count := 0 } := by
    simp [record_success, hb, hm, U32]
  have h3 : applySuccesses 3 b
      = record_success (record_success (record_success b)) := rfl
  refine ⟨?_, ?_⟩
  · intro k hk
    interval_cases k
    · exact hb
    · show (record_success b).state = BreakerState.HalfOpen
      rw [e1]; exact hb
    · show (record_success (record_success b)).state = BreakerState.HalfOpen
      rw [e1, e2]; exact hb
  · rw [h3, e1, e2, e3]
    exact ⟨rfl, rfl, rfl⟩

theorem claim_C6_halfOpen_close_witness :
    ((CircuitBreakerState.mk BreakerState.HalfOpen 2 0 5 60 (some 0) 1 3).state
        = BreakerState.HalfOpen ∧
     (CircuitBreakerState.mk BreakerState.HalfOpen 2 0 5 60 (some 0) 1 3).success_count
        = 0 ∧
     (CircuitBreakerState.mk BreakerState.HalfOpen 2 0 5 60 (some 0) 1 3).half_open_max
        = 3) ∧
    (applySuccesses 3
        (CircuitBreakerState.mk BreakerState.HalfOpen 2 0 5 60 (some 0) 1 3)).state
      = BreakerState.Closed :=
  ⟨⟨rfl, rfl, rfl⟩,
    (claim_C6_halfOpen_close _ rfl rfl rfl).2.1⟩

/-- Claim C10: in every reachable state, a breaker that is not `Closed` has a
recorded failure time, so the defensive `None` guard in `allow_request` never
fires along reachable executions. -/
theorem claim_C10_nonClosed_has_failure_time (b : CircuitBreakerState)
    (hb : Reachable b) (hst : b.state ≠ BreakerState.Closed) :
    ∃ T, b.last_failure_time = some T := by
  obtain ⟨_, _, hlf⟩ := reachable_inv hb
  exact Option.ne_none_iff_exists'.mp (hlf hst)

theorem claim_C10_nonClosed_has_failure_time_witness :
    (Reachable (applyOp initState (Op.forceOpen 0)) ∧
     (applyOp initState (Op.forceOpen 0)).state ≠ BreakerState.Closed) ∧
    ∃ T, (applyOp initState (Op.forceOpen 0)).last_failure_time = some T := by
  have hr : Reachable (applyOp initState (Op.forceOpen 0)) :=
    Reachable.next initState (Op.forceOpen 0) Reachable.init (by decide)
  exact ⟨⟨hr, by decide⟩,
    claim_C10_nonClosed_has_failure_time _ hr (by decide)⟩

lemma admitted_halfOpen_bound (ops : List Op) :
    ∀ b : CircuitBreakerState, b.state = BreakerState.HalfOpen →
      b.half_open_max = 3 → b.half_open_calls ≤ 3 →
      staysHalfOpen b ops →
      admitted b ops + b.half_open_calls ≤ 3 := by
  induction ops with
  | nil =>
      intro b _ _ hoc _
      simpa [admitted] using hoc
  | cons op ops ih =>
      intro b hb hm hoc hstay
      obtain ⟨h1, h2⟩ := hstay
      cases op with
      | allowRequest t =>
          by_cases hlt : b.half_open_calls < b.half_open_max
          · have heq := allow_request_halfOpen_lt t b hb hlt
            have hmod : (b.half_open_calls + 1) % U32 = b.half_open_calls + 1 :=
              Nat.mod_eq_of_lt (by have := four_le_U32; omega)
            have happ : applyOp b (Op.allowRequest t) =
                { b with half_open_calls := b.half_open_calls + 1 } := by
              show (allow_request t b).2 = _
              rw [heq, hmod]
            rw [happ] at h2
            have hIH : admitted
                  { b with half_open_calls := b.half_open_calls + 1 } ops
                + (b.half_open_calls + 1) ≤ 3 :=
              ih { b with half_open_calls := b.half_open_calls + 1 }
                hb hm (by show b.half_open_calls + 1 ≤ 3; omega) h2
            have hcount : admitted b (Op.allowRequest t :: ops)
                = 1 + admitted { b with half_open_calls := b.half_open_calls + 1 }
                    ops := by
              show (if (allow_request t b).1 then 1 else 0)
                  + admitted (applyOp b (Op.allowRequest t)) ops = _
              rw [heq, happ]
              rfl
            rw [hcount]
            omega
          · have heq := allow_request_halfOpen_ge t b hb (Nat.not_lt.mp hlt)
            have happ : applyOp b (Op.allowRequest t) = b := by
              show (allow_request t b).2 = b
              rw [heq]
            rw [happ] at h2
            have hIH := ih b hb hm hoc h2
            have hcount : admitted b (Op.allowRequest t :: ops)
                = 0 + admitted b ops := by
              show (if (allow_request t b).1 then 1 else 0)
                  + admitted (applyOp b (Op.allowRequest t)) ops = _
              rw [heq, happ]
              rfl
            rw [hcount]
            omega
      | recordSuccess =>
          by_cases hge : b.half_open_max ≤ (b.success_count + 1) % U32
          · exfalso
            have : (applyOp b Op.recordSuccess).state = BreakerState.Closed := by
              show (record_success b).state = _
              rw [record_success_halfOpen_ge b hb hge]
            rw [this] at h1
            exact absurd h1 (by simp)
          · have happ : applyOp b Op.recordSuccess =
                { b with success_count := (b.success_count + 1) % U32 } := by
              show record_success b = _
              rw [record_success_halfOpen_lt b hb (Nat.not_le.mp hge)]
            rw [happ] at h2
            have hIH : admitted
                  { b with success_count := (b.success_count + 1) % U32 } ops
                + b.half_open_calls ≤ 3 :=
              ih { b with success_count := (b.success_count + 1) % U32 }
                hb hm hoc h2
            have hcount : admitted b (Op.recordSuccess :: ops)
                = 0 + admitted { b with
                    success_count := (b.success_count + 1) % U32 } ops := by
              show 0 + admitted (applyOp b Op.recordSuccess) ops = _
              rw [happ]
            rw [hcount]
            omega
      | recordFailure t =>
          exfalso
          have : (applyOp b (Op.recordFailure t)).state = BreakerState.Open := by
            show (record_failure t b).state = _
            rw [record_failure_halfOpen t b hb]
          rw [this] at h1
          exact absurd h1 (by simp)
      | forceOpen t =>
          exfalso
          have : (applyOp b (Op.forceOpen t)).state = BreakerState.Open := rfl
          rw [this] at h1
          exact absurd h1 (by simp)
      | initBreaker ft rt =>
          exfalso
          have : (applyOp b (Op.initBreaker ft rt)).state
              = BreakerState.Closed := rfl
          rw [this] at h1
          exact absurd h1 (by simp)
      | getStatus =>
          have hIH := ih b hb hm hoc h2
          have hcount : admitted b (Op.getStatus :: ops)
              = 0 + admitted b ops := rfl
          rw [hcount]
          omega
      | resetBreaker =>
          exfalso
          have : (applyOp b Op.resetBreaker).state = BreakerState.Closed := rfl
          rw [this] at h1
          exact absurd h1 (by simp)

/-- Claim C5: half-open trial cap.  In every reachable state
`half_open_calls ≤ half_open_max`; and from any reachable `HalfOpen` state,
along any sequence of exported calls during which the breaker stays
`HalfOpen`, the number of `allow_request` calls returning `true` plus the
trials already granted never exceeds `half_open_max`. -/
theorem claim_C5_halfOpen_cap :
    (∀ b, Reachable b → b.half_open_calls ≤ b.half_open_max) ∧
    (∀ (b : CircuitBreakerState) (ops : List Op), Reachable b →
        b.state = BreakerState.HalfOpen → staysHalfOpen b ops →
        admitted b ops + b.half_open_calls ≤ b.half_open_max) := by
  constructor
  · intro b hr
    obtain ⟨hm3, hoc3, _⟩ := reachable_inv hr
    rw [hm3]
    exact hoc3
  · intro b ops hr hb hstay
    obtain ⟨hm3, hoc3, _⟩ := reachable_inv hr
    rw [hm3]
    exact admitted_halfOpen_bound ops b hb hm3 hoc3 hstay

theorem claim_C5_halfOpen_cap_witness :
    (Reachable (applyOp (applyOp (applyOp initState (Op.initBreaker 1 0))
        (Op.recordFailure 0)) (Op.allowRequest 0)) ∧
     (applyOp (applyOp (applyOp initState (Op.initBreaker 1 0))
        (Op.recordFailure 0)) (Op.allowRequest 0)).state
        = BreakerState.HalfOpen ∧
     staysHalfOpen (applyOp (applyOp (applyOp initState (Op.initBreaker 1 0))
        (Op.recordFailure 0)) (Op.allowRequest 0)) [Op.allowRequest 5]) ∧
    admitted (applyOp (applyOp (applyOp initState (Op.initBreaker 1 0))
        (Op.recordFailure 0)) (Op.allowRequest 0)) [Op.allowRequest 5]
      + (applyOp (applyOp (applyOp initState (Op.initBreaker 1 0))
          (Op.recordFailure 0)) (Op.allowRequest 0)).half_open_calls
      ≤ (applyOp (applyOp (applyOp initState (Op.initBreaker 1 0))
          (Op.recordFailure 0)) (Op.allowRequest 0)).half_open_max := by
  have hr : Reachable (applyOp (applyOp (applyOp initState
      (Op.initBreaker 1 0)) (Op.recordFailure 0)) (Op.allowRequest 0)) :=
    Reachable.next _ _
      (Reachable.next _ _
        (Reachable.next _ _ Reachable.init (by decide))
        (by decide))
      (by decide)
  have hstay : staysHalfOpen (applyOp (applyOp (applyOp initState
      (Op.initBreaker 1 0)) (Op.recordFailure 0)) (Op.allowRequest 0))
      [Op.allowRequest 5] := ⟨by decide, trivial⟩
  exact ⟨⟨hr, by decide, hstay⟩,
    claim_C5_halfOpen_cap.2 _ [Op.allowRequest 5] hr (by decide) hstay⟩

/-- Claim C9: `allow_request` is the only operation performing the
`Open → HalfOpen` transition.  From any reachable `Open` state, none of
`record_success`, `record_failure`, `force_open`, `init_breaker`,
`get_status` (a read-only call, modelled as the identity step) or
`reset_breaker` leaves the breaker `HalfOpen`; and once `HalfOpen`, further
`allow_request` calls keep the state `HalfOpen`, never touch
`success_count`, and never decrease `half_open_calls` (so the transition's
resets are not re-triggered). -/
theorem claim_C9_only_allow_request_recovers :
    (∀ b, Reachable b → b.state = BreakerState.Open →
        ∀ t ft rt,
          (record_success b).state ≠ BreakerState.HalfOpen ∧
          (record_failure t b).state ≠ BreakerState.HalfOpen ∧
          (force_open t b).state ≠ BreakerState.HalfOpen ∧
          (init_breaker ft rt b).state ≠ BreakerState.HalfOpen ∧
          (applyOp b Op.getStatus).state ≠ BreakerState.HalfOpen ∧
          (reset_breaker b).state ≠ BreakerState.HalfOpen) ∧
    (∀ b, Reachable b → b.state = BreakerState.HalfOpen → ∀ t,
        (allow_request t b).2.state = BreakerState.HalfOpen ∧
        (allow_request t b).2.success_count = b.success_count ∧
        b.half_open_calls ≤ (allow_request t b).2.half_open_calls) := by
  constructor
  · intro b _ hb t ft rt
    have hnotHO : b.state ≠ BreakerState.HalfOpen := by rw [hb]; simp
    refine ⟨?_, ?_, ?_, ?_, ?_, ?_⟩
    · rw [record_success_not_halfOpen b hnotHO]
      show b.state ≠ BreakerState.HalfOpen
      exact hnotHO
    · by_cases hge : b.failure_threshold ≤ (b.failure_count + 1) % U32
      · rw [record_failure_trip t b hnotHO hge]
        simp
      · rw [record_failure_stay t b hnotHO (Nat.not_le.mp hge)]
        show b.state ≠ BreakerState.HalfOpen
        exact hnotHO
    · show BreakerState.Open ≠ BreakerState.HalfOpen
      simp
    · show BreakerState.Closed ≠ BreakerState.HalfOpen
      simp
    · show b.state ≠ BreakerState.HalfOpen
      exact hnotHO
    · show BreakerState.Closed ≠ BreakerState.HalfOpen
      simp
  · intro b hr hb t
    obtain ⟨hm3, hoc3, _⟩ := reachable_inv hr
    by_cases hlt : b.half_open_calls < b.half_open_max
    · rw [allow_request_halfOpen_lt t b hb hlt]
      have hmod : (b.half_open_calls + 1) % U32 = b.half_open_calls + 1 :=
        Nat.mod_eq_of_lt (by have := four_le_U32; omega)
      refine ⟨hb, rfl, ?_⟩
      show b.half_open_calls ≤ (b.half_open_calls + 1) % U32
      rw [hmod]
      omega
    · rw [allow_request_halfOpen_ge t b hb (Nat.not_lt.mp hlt)]
      exact ⟨hb, rfl, le_refl _⟩

theorem claim_C9_only_allow_request_recovers_witness :
    ((Reachable (applyOp initState (Op.forceOpen 3)) ∧
      (applyOp initState (Op.forceOpen 3)).state = BreakerState.Open) ∧
     (record_success (applyOp initState (Op.forceOpen 3))).state
        ≠ BreakerState.HalfOpen) ∧
    ((Reachable (applyOp (applyOp initState (Op.forceOpen 3))
        (Op.allowRequest 60003)) ∧
      (applyOp (applyOp initState (Op.forceOpen 3))
        (Op.allowRequest 60003)).state = BreakerState.HalfOpen) ∧
     (allow_request 9 (applyOp (applyOp initState (Op.forceOpen 3))
        (Op.allowRequest 60003))).2.state = BreakerState.HalfOpen) := by
  have hr1 : Reachable (applyOp initState (Op.forceOpen 3)) :=
    Reachable.next _ _ Reachable.init (by decide)
  have hr2 : Reachable (applyOp (applyOp initState (Op.forceOpen 3))
      (Op.allowRequest 60003)) :=
    Reachable.next _ _ hr1 (by decide)
  refine ⟨⟨⟨hr1, by decide⟩, ?_⟩, ⟨⟨hr2, by decide⟩, ?_⟩⟩
  · exact (claim_C9_only_allow_request_recovers.1 _ hr1 (by decide) 0 0 0).1
  · exact (claim_C9_only_allow_request_recovers.2 _ hr2 (by decide) 9).1

end AgenticWasm
